import Mathlib

/-!
Shallow embedding of the core of the 42-radio backend (Convex functions in
`src/convex/`), together with theorems settling the specification claims
about track advancement, enqueue deduplication, the YouTube API key pool
and the YouTube match cache.

Conventions of the embedding:
* Database tables become Lean lists (in `_creationTime`, i.e. insertion,
  order) or lookup functions; `ctx.db.insert` draws fresh ids from a
  `nextId` counter carried in the state.
* `Date.now()` becomes an explicit `now : Nat` parameter (milliseconds);
  `Math.random()`-driven index picks become an explicit `rand : Nat`
  parameter reduced modulo the pool size.
* The `history` list is kept most-recent-first, so Convex's
  `.order("desc")` is the list itself and an insert is a `cons`.
* Logging (`logToDatabase`), the library upsert (a separate table whose
  failure is swallowed by the source) and transition-audio generation are
  side effects with no bearing on the claims and are not modelled.
-/

namespace Radio

/-- A document of the `queue` table (`src/convex/schema.ts`). -/
structure QueueEntry where
  id : Nat
  discogsId : String
  title : String
  artist : String
  year : Option Nat
  label : Option String
  youtubeId : String
  durationSeconds : Option Nat
  createdAt : Nat
  transitionAudioUrl : Option String
deriving Repr, DecidableEq

/-- The singleton document of the `currentTrack` table. -/
structure CurrentTrack where
  id : Nat
  discogsId : String
  title : String
  artist : String
  year : Option Nat
  label : Option String
  youtubeId : String
  durationSeconds : Option Nat
  startedAt : Nat
  transitionAudioUrl : Option String
deriving Repr, DecidableEq

/-- A document of the `history` table.  The `likedBy` bookkeeping field is
never read or written by the functions under study and is omitted. -/
structure HistoryEntry where
  id : Nat
  discogsId : String
  title : String
  artist : String
  youtubeId : String
  durationSeconds : Option Nat
  playedAt : Nat
  replayCount : Option Nat
  lastReplayedAt : Option Nat
deriving Repr, DecidableEq

/-- The state of the radio tables.  `queue` is in insertion order,
`history` is most-recent-first, `nextId` feeds `ctx.db.insert`. -/
structure RadioState where
  queue : List QueueEntry
  currentTrack : Option CurrentTrack
  history : List HistoryEntry
  nextId : Nat
deriving Repr, DecidableEq

def initialRadioState : RadioState :=
  { queue := [], currentTrack := none, history := [], nextId := 0 }

/-- `isTrackInRecentHistory` (src/convex/radio.ts): take the `lastNTracks`
most recent history documents and look for the discogs id among them. -/
def isTrackInRecentHistory (discogsId : String) (lastNTracks : Nat)
    (history : List HistoryEntry) : Bool :=
  ((history.take lastNTracks).find? (fun t => t.discogsId == discogsId)).isSome

/-- Arguments of the `addToQueue` mutation (src/convex/radio.ts). -/
structure AddToQueueArgs where
  discogsId : String
  title : String
  artist : String
  year : Option Nat
  label : Option String
  youtubeId : String
  durationSeconds : Nat
  transitionAudioUrl : Option String
deriving Repr, DecidableEq

/-- The `queue` document inserted by `addToQueue` (`createdAt := Date.now()`). -/
def queueEntryOfArgs (id now : Nat) (a : AddToQueueArgs) : QueueEntry :=
  { id := id, discogsId := a.discogsId, title := a.title, artist := a.artist,
    year := a.year, label := a.label, youtubeId := a.youtubeId,
    durationSeconds := some a.durationSeconds, createdAt := now,
    transitionAudioUrl := a.transitionAudioUrl }

/-- `addToQueue` (src/convex/radio.ts).  Returns the value the mutation
returns (`existing id`, `null`, or the fresh id) and the new state:
* a candidate already queued returns the existing document's id unchanged;
* a candidate among the last 100 history plays returns `null` unchanged;
* otherwise the candidate is inserted at the end of the queue. -/
def addToQueue (now : Nat) (a : AddToQueueArgs) (s : RadioState) :
    Option Nat × RadioState :=
  match s.queue.find? (fun q => q.discogsId == a.discogsId) with
  | some existingInQueue => (some existingInQueue.id, s)
  | none =>
    if isTrackInRecentHistory a.discogsId 100 s.history then
      (none, s)
    else
      (some s.nextId,
        { s with queue := s.queue ++ [queueEntryOfArgs s.nextId now a],
                 nextId := s.nextId + 1 })

/-- `getRandomHistoryTrack` (src/convex/radio.ts): prefer history entries
strictly older than the cutoff; if none, take the 200 most recent entries
and drop the `excludeRecent` most recent of those; pick at random. -/
def getRandomHistoryTrack (now rand hoursBack excludeRecent : Nat)
    (history : List HistoryEntry) : Option HistoryEntry :=
  let cutoffTime := now - hoursBack * 60 * 60 * 1000
  let eligibleTracks := history.filter (fun t => t.playedAt < cutoffTime)
  if eligibleTracks.isEmpty then
    let allHistory := history.take 200
    let fallbackTracks := allHistory.drop excludeRecent
    if fallbackTracks.isEmpty then
      none
    else
      fallbackTracks.get? (rand % fallbackTracks.length)
  else
    eligibleTracks.get? (rand % eligibleTracks.length)

/-- The queue document popped by `advanceToNextTrack`: first document of
the `by_createdAt` index in ascending order, i.e. the earliest inserted
document of minimal `createdAt`. -/
def minByCreatedAt : List QueueEntry → Option QueueEntry
  | [] => none
  | q :: qs =>
    some (qs.foldl (fun best cur =>
      if cur.createdAt < best.createdAt then cur else best) q)

/-- The `history` document written when the current track is archived
(`playedAt` = the archived track's `startedAt`). -/
def historyEntryOfCurrent (id : Nat) (c : CurrentTrack) : HistoryEntry :=
  { id := id, discogsId := c.discogsId, title := c.title, artist := c.artist,
    youtubeId := c.youtubeId, durationSeconds := c.durationSeconds,
    playedAt := c.startedAt, replayCount := none, lastReplayedAt := none }

/-- "Move current track to history if it exists" step of
`advanceToNextTrack`: insert the archive document, delete the current one. -/
def archiveCurrentTrack (s : RadioState) : RadioState :=
  match s.currentTrack with
  | none => s
  | some c =>
    { s with history := historyEntryOfCurrent s.nextId c :: s.history,
             currentTrack := none, nextId := s.nextId + 1 }

/-- The `currentTrack` document inserted from a popped queue entry
(`startedAt := Date.now()`; year, label and transition audio are copied). -/
def currentTrackOfQueueEntry (id now : Nat) (q : QueueEntry) : CurrentTrack :=
  { id := id, discogsId := q.discogsId, title := q.title, artist := q.artist,
    year := q.year, label := q.label, youtubeId := q.youtubeId,
    durationSeconds := q.durationSeconds, startedAt := now,
    transitionAudioUrl := q.transitionAudioUrl }

/-- The `currentTrack` document inserted from a history fallback track
(the source copies no year/label/transition audio on this path). -/
def currentTrackOfHistoryEntry (id now : Nat) (h : HistoryEntry) : CurrentTrack :=
  { id := id, discogsId := h.discogsId, title := h.title, artist := h.artist,
    year := none, label := none, youtubeId := h.youtubeId,
    durationSeconds := h.durationSeconds, startedAt := now,
    transitionAudioUrl := none }

/-- `db.patch` on a document id: rewrite the (unique) first matching entry. -/
def patchFirst {α : Type} (p : α → Bool) (f : α → α) : List α → List α
  | [] => []
  | x :: xs => if p x then f x :: xs else x :: patchFirst p f xs

/-- `advanceToNextTrack` (src/convex/radio.ts).  Pops the queue head by
`createdAt`; if the queue is empty asks `getRandomHistoryTrack` (with
`hoursBack := 24`, `excludeRecent := 50`) for a fallback and gives up with
`null` when that fails; archives the current track; installs the new one
with `startedAt := now`; deletes a popped queue entry, or bumps
`replayCount`/`lastReplayedAt` of a fallback history entry. -/
def advanceToNextTrack (now rand : Nat) (s : RadioState) :
    Option Nat × RadioState :=
  match minByCreatedAt s.queue with
  | none =>
    match getRandomHistoryTrack now rand 24 50 s.history with
    | none => (none, s)
    | some historyTrack =>
      let s1 := archiveCurrentTrack s
      let newId := s1.nextId
      let s2 := { s1 with
        currentTrack := some (currentTrackOfHistoryEntry newId now historyTrack),
        nextId := newId + 1 }
      let s3 := { s2 with
        history := patchFirst (fun h => h.id == historyTrack.id)
          (fun h => { h with
            replayCount := some (historyTrack.replayCount.getD 0 + 1),
            lastReplayedAt := some now }) s2.history }
      (some newId, s3)
  | some nextTrack =>
    let s1 := archiveCurrentTrack s
    let newId := s1.nextId
    let s2 := { s1 with
      currentTrack := some (currentTrackOfQueueEntry newId now nextTrack),
      nextId := newId + 1 }
    let s3 := { s2 with queue := s2.queue.eraseP (fun q => q.id == nextTrack.id) }
    (some newId, s3)

/-- `advanceToNextTrackWithContext` (src/convex/radio.ts): reads the queue
head; with an empty queue it returns `null` without touching anything,
otherwise (after best-effort transition audio work, not modelled) it runs
the `advanceToNextTrack` mutation. -/
def advanceToNextTrackWithContext (now rand : Nat) (s : RadioState) :
    Option Nat × RadioState :=
  if s.queue.isEmpty then (none, s) else advanceToNextTrack now rand s

/-- JS `currentTrack.durationSeconds || 180`: an absent — or zero, `0`
being falsy — duration falls back to 180 seconds. -/
def effectiveDurationSeconds : Option Nat → Nat
  | none => 180
  | some 0 => 180
  | some (n + 1) => n + 1

/-- `checkAndAdvanceTrack` (src/convex/trackMonitor.ts).  The returned
`Bool` records whether track advancement was invoked: with a current
track, exactly when `timeRemaining <= 0`, i.e.
`startedAt + durationMs <= now`; with none, exactly when the queue is
non-empty.  (The emergency replenishment kicked off after a fallback
advance is an external discovery action, not modelled.) -/
def checkAndAdvanceTrack (now rand : Nat) (s : RadioState) :
    Bool × RadioState :=
  match s.currentTrack with
  | none =>
    if 0 < s.queue.length then
      (true, (advanceToNextTrackWithContext now rand s).2)
    else
      (false, s)
  | some currentTrack =>
    let trackDuration := effectiveDurationSeconds currentTrack.durationSeconds * 1000
    let trackEndTime := currentTrack.startedAt + trackDuration
    if trackEndTime ≤ now then
      (true, (advanceToNextTrackWithContext now rand s).2)
    else
      (false, s)

/-- The operations that drive the queue/current/history state. -/
inductive RadioOp where
  | enqueue (now : Nat) (args : AddToQueueArgs)
  | advance (now rand : Nat)

def applyOp (s : RadioState) : RadioOp → RadioState
  | .enqueue now a => (addToQueue now a s).2
  | .advance now rand => (advanceToNextTrack now rand s).2

/-- Run a sequence of operations from a state; `runOps ops initialRadioState`
is exactly the set of reachable states. -/
def runOps (ops : List RadioOp) (s : RadioState) : RadioState :=
  ops.foldl applyOp s

end Radio

namespace KeyPool

/-!
Embedding of `src/convex/youtubeApiKeyPool.ts` for a single quota day: the
`youtubeApiUsage` table restricted to `date = today` becomes a partial map
from key id to its usage record, and the `by_key_and_date` index lookup is
application of that map.  Whether an environment variable holds an API key
for a credential is an explicit `configured` predicate.
-/

/-- The per-(key, day) fields of a `youtubeApiUsage` document that the pool
logic reads and writes (timestamps/date bookkeeping omitted). -/
structure KeyUsage where
  quotaUsed : Nat
  callsSuccessful : Nat
  callsFailed : Nat
  quotaExhausted : Bool
deriving Repr, DecidableEq

/-- Today's slice of the `youtubeApiUsage` table. -/
def UsageMap : Type := String → Option KeyUsage

/-- `API_KEY_CONFIG.DAILY_QUOTA_LIMIT`. -/
def DAILY_QUOTA_LIMIT : Nat := 10000

/-- The ids of `API_KEY_CONFIG.KEYS`. -/
def API_KEYS : List String := ["key1", "key2"]

/-- The zero-usage record `getKeyUsageToday` fabricates when no document
exists for the key today. -/
def freshUsage : KeyUsage :=
  { quotaUsed := 0, callsSuccessful := 0, callsFailed := 0,
    quotaExhausted := false }

/-- `getKeyUsageToday` (src/convex/youtubeApiKeyPool.ts): the key's record
for today, or the zero record if none exists. -/
def getKeyUsageToday (keyId : String) (s : UsageMap) : KeyUsage :=
  (s keyId).getD freshUsage

/-- `updateKeyUsage` (src/convex/youtubeApiKeyPool.ts): add the quota cost
and bump the success/failure counter; the exhausted flag becomes true on a
403 error code, persists a pre-existing true on any failure, and on a
patch is additionally kept true whenever it already was. -/
def updateKeyUsage (keyId : String) (quotaCost : Nat) (success : Bool)
    (errorCode : Option Nat) (s : UsageMap) : UsageMap :=
  let existing := s keyId
  let quotaExhausted :=
    errorCode == some 403 ||
      ((existing.map (fun e => e.quotaExhausted)).getD false && !success)
  match existing with
  | some e =>
    fun k => if k = keyId then
      some { quotaUsed := e.quotaUsed + quotaCost,
             callsSuccessful := e.callsSuccessful + (if success then 1 else 0),
             callsFailed := e.callsFailed + (if success then 0 else 1),
             quotaExhausted := quotaExhausted || e.quotaExhausted }
    else s k
  | none =>
    fun k => if k = keyId then
      some { quotaUsed := quotaCost,
             callsSuccessful := if success then 1 else 0,
             callsFailed := if success then 0 else 1,
             quotaExhausted := quotaExhausted }
    else s k

/-- The operations of `QUOTA_COSTS`. -/
inductive YouTubeOperation where
  | search
  | videoDetails
  | batchVideoDetails
deriving Repr, DecidableEq

/-- `QUOTA_COSTS` (src/convex/youtubeApiKeyPool.ts). -/
def quotaCostOf : YouTubeOperation → Nat
  | .search => 100
  | .videoDetails => 1
  | .batchVideoDetails => 1

/-- One element of the `keyUsages` array built by `getBestAvailableKey`. -/
structure KeyCandidate where
  id : String
  usage : KeyUsage
  canUse : Bool
deriving Repr, DecidableEq

/-- The `keyUsages` array of `getBestAvailableKey`: each configured key of
`API_KEYS` with today's usage and its `canUse` verdict; keys whose
environment variable is unset are skipped. -/
def keyUsagesFor (quotaCost : Nat) (configured : String → Bool)
    (s : UsageMap) : List KeyCandidate :=
  API_KEYS.filterMap (fun kid =>
    if configured kid then
      let usage := getKeyUsageToday kid s
      some { id := kid, usage := usage,
             canUse := !usage.quotaExhausted &&
               decide (usage.quotaUsed + quotaCost ≤ DAILY_QUOTA_LIMIT) }
    else none)

/-- `getBestAvailableKey` (src/convex/youtubeApiKeyPool.ts): among the
configured keys that are not exhausted and whose usage plus the
operation's quota cost fits the daily limit, reduce to the one with the
strictly lowest `quotaUsed` (the earliest on ties); `none` stands for the
thrown "All YouTube API keys have exhausted their daily quota" error.
Returns the chosen key id together with its current `quotaUsed`. -/
def getBestAvailableKey (op : YouTubeOperation) (configured : String → Bool)
    (s : UsageMap) : Option (String × Nat) :=
  let quotaCost := quotaCostOf op
  let keyUsages := keyUsagesFor quotaCost configured s
  let availableKeys := keyUsages.filter (fun k => k.canUse)
  match availableKeys with
  | [] => none
  | b :: rest =>
    let bestKey := rest.foldl (fun best current =>
      if current.usage.quotaUsed < best.usage.quotaUsed then current else best) b
    some (bestKey.id, bestKey.usage.quotaUsed)

/-- States of the usage table reachable by select-then-record call
sequences within one day: start from no records, and each step records —
with the operation's quota cost and an arbitrary call outcome — exactly
the key that `getBestAvailableKey` selected for that operation. -/
inductive PoolReachable : UsageMap → Prop where
  | init : PoolReachable (fun _ => none)
  | step (s : UsageMap) (op : YouTubeOperation) (configured : String → Bool)
      (success : Bool) (errorCode : Option Nat) (k : String) (u : Nat) :
      PoolReachable s →
      getBestAvailableKey op configured s = some (k, u) →
      PoolReachable (updateKeyUsage k (quotaCostOf op) success errorCode s)

end KeyPool

namespace Cache

/-!
Embedding of the YouTube match cache (`src/unnamed/part_006`, the
`youtube-cache` Convex module over the `youtubeCache` table).
-/

/-- JS `s.toLowerCase().trim()`, applied to artist and title before every
cache lookup and save. -/
def normalizeKey (s : String) : String := s.toLower.trim

/-- A document of the `youtubeCache` table; `artist`/`title` are stored in
normalized form. -/
structure CacheEntry where
  id : Nat
  artist : String
  title : String
  youtubeId : String
  videoTitle : String
  channelTitle : String
  thumbnailUrl : String
  durationSeconds : Nat
  viewCount : Nat
  publishedAt : String
  cachedAt : Nat
  lastUsedAt : Nat
  useCount : Nat
deriving Repr, DecidableEq

/-- The `youtubeCache` table (insertion order) plus the insert counter. -/
structure CacheState where
  entries : List CacheEntry
  nextId : Nat
deriving Repr, DecidableEq

/-- Arguments of the `saveToCache` mutation. -/
structure SaveToCacheArgs where
  artist : String
  title : String
  youtubeId : String
  videoTitle : String
  channelTitle : String
  thumbnailUrl : String
  durationSeconds : Nat
  viewCount : Nat
  publishedAt : String
deriving Repr, DecidableEq

/-- The cached match payload (the value fields of an entry, without key,
id, or usage bookkeeping). -/
structure CachedMatch where
  youtubeId : String
  videoTitle : String
  channelTitle : String
  thumbnailUrl : String
  durationSeconds : Nat
  viewCount : Nat
  publishedAt : String
deriving Repr, DecidableEq

def CacheEntry.storedMatch (e : CacheEntry) : CachedMatch :=
  { youtubeId := e.youtubeId, videoTitle := e.videoTitle,
    channelTitle := e.channelTitle, thumbnailUrl := e.thumbnailUrl,
    durationSeconds := e.durationSeconds, viewCount := e.viewCount,
    publishedAt := e.publishedAt }

def SaveToCacheArgs.payload (a : SaveToCacheArgs) : CachedMatch :=
  { youtubeId := a.youtubeId, videoTitle := a.videoTitle,
    channelTitle := a.channelTitle, thumbnailUrl := a.thumbnailUrl,
    durationSeconds := a.durationSeconds, viewCount := a.viewCount,
    publishedAt := a.publishedAt }

/-- The `by_artist_title` index `.first()` lookup under a normalized key:
the earliest inserted entry carrying that key. -/
def findByKey (normalizedArtist normalizedTitle : String)
    (entries : List CacheEntry) : Option CacheEntry :=
  entries.find? (fun e =>
    e.artist == normalizedArtist && e.title == normalizedTitle)

/-- `getCachedMatch` (src/unnamed/part_006): normalize the key and return
the cached document, if any. -/
def getCachedMatch (artist title : String) (c : CacheState) :
    Option CacheEntry :=
  findByKey (normalizeKey artist) (normalizeKey title) c.entries

/-- `saveToCache` (src/unnamed/part_006): normalize the key; if a document
with that key exists, patch it in place with the new match data
(bumping `useCount`, refreshing timestamps); otherwise insert a new
document with `useCount := 1`. -/
def saveToCache (now : Nat) (a : SaveToCacheArgs) (c : CacheState) :
    CacheState :=
  let normalizedArtist := normalizeKey a.artist
  let normalizedTitle := normalizeKey a.title
  match findByKey normalizedArtist normalizedTitle c.entries with
  | some existing =>
    { c with entries :=
        (Radio.patchFirst
          (fun e => e.artist == normalizedArtist && e.title == normalizedTitle)
          (fun e =>
            { e with youtubeId := a.youtubeId, videoTitle := a.videoTitle,
                     channelTitle := a.channelTitle,
                     thumbnailUrl := a.thumbnailUrl,
                     durationSeconds := a.durationSeconds,
                     viewCount := a.viewCount, publishedAt := a.publishedAt,
                     cachedAt := now, lastUsedAt := now,
                     useCount := existing.useCount + 1 })
          c.entries) }
  | none =>
    { entries := c.entries ++
        [{ id := c.nextId, artist := normalizedArtist,
           title := normalizedTitle, youtubeId := a.youtubeId,
           videoTitle := a.videoTitle, channelTitle := a.channelTitle,
           thumbnailUrl := a.thumbnailUrl,
           durationSeconds := a.durationSeconds, viewCount := a.viewCount,
           publishedAt := a.publishedAt, cachedAt := now, lastUsedAt := now,
           useCount := 1 }],
      nextId := c.nextId + 1 }

/-- Number of cache documents under a normalized key. -/
def countKey (normalizedArtist normalizedTitle : String)
    (entries : List CacheEntry) : Nat :=
  entries.countP (fun e =>
    e.artist == normalizedArtist && e.title == normalizedTitle)

/-- The empty cache. -/
def emptyCache : CacheState := { entries := [], nextId := 0 }

/-- Sample save arguments with an un-normalized key spelling. -/
def cacheArgsV1 : SaveToCacheArgs :=
  { artist := "  The Artist ", title := "Song", youtubeId := "vid1",
    videoTitle := "video one", channelTitle := "chan",
    thumbnailUrl := "thumb1", durationSeconds := 200, viewCount := 5,
    publishedAt := "2020-01-01" }

/-- Second save for the same key with a different payload. -/
def cacheArgsV2 : SaveToCacheArgs :=
  { cacheArgsV1 with youtubeId := "vid2", videoTitle := "video two",
                     thumbnailUrl := "thumb2", durationSeconds := 230,
                     viewCount := 9 }

end Cache

namespace Radio

/-- Sample history document: played at the reference instant
`1000000000000` (so within any 24h window ending there). -/
def recentHistoryEntry : HistoryEntry :=
  { id := 0, discogsId := "A", title := "t", artist := "a", youtubeId := "y",
    durationSeconds := some 200, playedAt := 1000000000000,
    replayCount := none, lastReplayedAt := none }

/-- State with an empty queue and exactly one history entry, played within
the last 24 hours. -/
def oneRecentHistoryState : RadioState :=
  { queue := [], currentTrack := none, history := [recentHistoryEntry],
    nextId := 1 }

/-- Sample enqueue arguments for a track with catalog id "Y". -/
def argsY : AddToQueueArgs :=
  { discogsId := "Y", title := "ty", artist := "ay", year := none,
    label := none, youtubeId := "yy", durationSeconds := 100,
    transitionAudioUrl := none }

/-- Sample enqueue arguments for a track with catalog id "X". -/
def argsX : AddToQueueArgs :=
  { argsY with discogsId := "X", title := "tx", artist := "ax",
               youtubeId := "yx" }

/-- An operation sequence from the empty state: play Y, then X, and while
X is current enqueue X again (accepted: X is neither queued nor in
history — the dedup checks never look at the current track). -/
def repeatTrace : List RadioOp :=
  [.enqueue 1 argsY, .advance 2 0, .enqueue 3 argsX, .advance 4 0,
   .enqueue 5 argsX]

/-- The state reached by `repeatTrace`: X is current, X is queued again,
and the history holds Y. -/
def repeatTraceState : RadioState := runOps repeatTrace initialRadioState

/-- Sample queue document. -/
def sampleQueueEntry : QueueEntry :=
  { id := 0, discogsId := "Q", title := "tq", artist := "aq", year := none,
    label := none, youtubeId := "yq", durationSeconds := some 240,
    createdAt := 10, transitionAudioUrl := none }

/-- Sample current track, started at instant 1000, with no stored
duration. -/
def sampleCurrent : CurrentTrack :=
  { id := 7, discogsId := "C", title := "tc", artist := "ac", year := none,
    label := none, youtubeId := "yc", durationSeconds := none,
    startedAt := 1000, transitionAudioUrl := none }

/-- State with one queued track and a playing current track. -/
def queuedWithCurrentState : RadioState :=
  { queue := [sampleQueueEntry], currentTrack := some sampleCurrent,
    history := [], nextId := 8 }

end Radio

namespace KeyPool

/-- A credential qualifies for selection at a given quota cost: it is one
of the configured pool keys, is not flagged exhausted today, and its usage
plus the cost fits the daily limit. -/
def Qualifies (quotaCost : Nat) (configured : String → Bool) (s : UsageMap)
    (k : String) : Prop :=
  k ∈ API_KEYS ∧ configured k = true ∧
  (getKeyUsageToday k s).quotaExhausted = false ∧
  (getKeyUsageToday k s).quotaUsed + quotaCost ≤ DAILY_QUOTA_LIMIT

/-- The spec's scenario: credential key1 at 9950/10000 used, key2 at
0/10000, neither flagged. -/
def scenarioUsage : UsageMap := fun k =>
  if k = "key1" then
    some { quotaUsed := 9950, callsSuccessful := 99, callsFailed := 0,
           quotaExhausted := false }
  else if k = "key2" then
    some { quotaUsed := 0, callsSuccessful := 0, callsFailed := 0,
           quotaExhausted := false }
  else none

/-- Usage table with key1 flagged exhausted below its numeric budget. -/
def exhaustedUsage : UsageMap := fun k =>
  if k = "key1" then
    some { quotaUsed := 500, callsSuccessful := 4, callsFailed := 1,
           quotaExhausted := true }
  else none

end KeyPool

section Helpers

variable {α : Type}

/-- Helper: a fold that keeps the element of strictly smaller measure
returns the seed or a list element. -/
theorem foldl_minBy_mem (m : α → Nat) (b : α) (l : List α) :
    l.foldl (fun best cur => if m cur < m best then cur else best) b = b ∨
    l.foldl (fun best cur => if m cur < m best then cur else best) b ∈ l := by
  induction l generalizing b with
  | nil => exact Or.inl rfl
  | cons x xs ih =>
    simp only [List.foldl_cons]
    by_cases hx : m x < m b
    · simp only [if_pos hx]
      rcases ih x with h | h
      · rw [h]; exact Or.inr (List.mem_cons_self x xs)
      · exact Or.inr (List.mem_cons_of_mem x h)
    · simp only [if_neg hx]
      rcases ih b with h | h
      · exact Or.inl h
      · exact Or.inr (List.mem_cons_of_mem x h)

/-- Helper: the fold result's measure is at most the seed's and at most
every list element's. -/
theorem foldl_minBy_le (m : α → Nat) (b : α) (l : List α) :
    m (l.foldl (fun best cur => if m cur < m best then cur else best) b) ≤ m b ∧
    ∀ x ∈ l,
      m (l.foldl (fun best cur => if m cur < m best then cur else best) b) ≤ m x := by
  induction l generalizing b with
  | nil => exact ⟨le_refl _, by simp⟩
  | cons x xs ih =>
    simp only [List.foldl_cons]
    obtain ⟨h1, h2⟩ := ih (if m x < m b then x else b)
    have hb : m (if m x < m b then x else b) ≤ m b := by
      by_cases hx : m x < m b
      · simp [hx, Nat.le_of_lt hx]
      · simp [hx]
    have hx' : m (if m x < m b then x else b) ≤ m x := by
      by_cases hx : m x < m b
      · simp [hx]
      · simp [hx, Nat.le_of_not_lt hx]
    refine ⟨le_trans h1 hb, ?_⟩
    intro y hy
    rcases List.mem_cons.mp hy with rfl | hy
    · exact le_trans h1 hx'
    · exact h2 y hy

/-- Helper: searching a concatenation whose left part has no match. -/
theorem find?_append_eq_right (p : α → Bool) (l l' : List α)
    (h : l.find? p = none) : (l ++ l').find? p = l'.find? p := by
  induction l with
  | nil => rfl
  | cons x xs ih =>
    rw [List.find?_cons] at h
    cases hp : p x with
    | true => simp [hp] at h
    | false =>
      simp only [hp] at h
      simpa [List.find?_cons, hp] using ih h

/-- Helper: `patchFirst` rewrites the first match, so searching afterwards
finds the rewritten document, provided the rewrite preserves the
predicate. -/
theorem find?_patchFirst (p : α → Bool) (f : α → α) (l : List α)
    (hpf : ∀ x, p x = true → p (f x) = true) :
    (Radio.patchFirst p f l).find? p = (l.find? p).map f := by
  induction l with
  | nil => rfl
  | cons x xs ih =>
    cases hp : p x with
    | true =>
      simp [Radio.patchFirst, hp, List.find?_cons, hpf x hp]
    | false =>
      simp [Radio.patchFirst, hp, List.find?_cons, ih]

/-- Helper: `patchFirst` preserves match counts when the rewrite preserves
the predicate's value. -/
theorem countP_patchFirst (p : α → Bool) (f : α → α) (l : List α)
    (hpf : ∀ x, p (f x) = p x) :
    (Radio.patchFirst p f l).countP p = l.countP p := by
  induction l with
  | nil => rfl
  | cons x xs ih =>
    cases hp : p x with
    | true => simp [Radio.patchFirst, hp, List.countP_cons, hpf, ih]
    | false => simp [Radio.patchFirst, hp, List.countP_cons, hpf, ih]

end Helpers

namespace Radio

/-- Helper: the popped queue document is a queue document. -/
theorem minByCreatedAt_mem {l : List QueueEntry} {q : QueueEntry}
    (h : minByCreatedAt l = some q) : q ∈ l := by
  cases l with
  | nil => cases h
  | cons x xs =>
    simp only [minByCreatedAt, Option.some.injEq] at h
    rcases foldl_minBy_mem (fun e => e.createdAt) x xs with h' | h'
    · rw [h] at h'
      rw [h']
      exact List.mem_cons_self x xs
    · rw [h] at h'
      exact List.mem_cons_of_mem x h'

/-- Helper: the popped queue document has minimal `createdAt`. -/
theorem minByCreatedAt_le {l : List QueueEntry} {q : QueueEntry}
    (h : minByCreatedAt l = some q) :
    ∀ x ∈ l, q.createdAt ≤ x.createdAt := by
  cases l with
  | nil => cases h
  | cons x xs =>
    simp only [minByCreatedAt, Option.some.injEq] at h
    obtain ⟨h1, h2⟩ := foldl_minBy_le (fun e => e.createdAt) x xs
    intro y hy
    rcases List.mem_cons.mp hy with rfl | hy
    · exact h ▸ h1
    · exact h ▸ h2 y hy

/-- Helper: a non-empty queue always has a document to pop. -/
theorem minByCreatedAt_of_ne_nil {l : List QueueEntry} (h : l ≠ []) :
    ∃ q, minByCreatedAt l = some q := by
  cases l with
  | nil => exact absurd rfl h
  | cons x xs => exact ⟨_, rfl⟩

end Radio

namespace Radio

/-- C2 — Advance on a non-empty queue: `advanceToNextTrack` selects the
queue entry with the smallest `createdAt`; if a current track exists it
appends a history entry with `playedAt` equal to that track's `startedAt`
(this is `historyEntryOfCurrent`) and deletes the old current track; it
installs the popped entry as the new current track with `startedAt = now`
(this is `currentTrackOfQueueEntry`), deletes that entry from the queue,
and returns the new current track's id. -/
theorem advance_nonempty_queue_spec (now rand : Nat) (s : RadioState)
    (hq : s.queue ≠ []) :
    ∃ nextTrack, minByCreatedAt s.queue = some nextTrack ∧
      nextTrack ∈ s.queue ∧
      (∀ q ∈ s.queue, nextTrack.createdAt ≤ q.createdAt) ∧
      (advanceToNextTrack now rand s).1 =
        some (archiveCurrentTrack s).nextId ∧
      (advanceToNextTrack now rand s).2.currentTrack =
        some (currentTrackOfQueueEntry (archiveCurrentTrack s).nextId now
          nextTrack) ∧
      (advanceToNextTrack now rand s).2.queue =
        s.queue.eraseP (fun q => q.id == nextTrack.id) ∧
      (∀ c, s.currentTrack = some c →
        (advanceToNextTrack now rand s).2.history =
          historyEntryOfCurrent s.nextId c :: s.history) ∧
      (s.currentTrack = none →
        (advanceToNextTrack now rand s).2.history = s.history) := by
  obtain ⟨nextTrack, hnext⟩ := minByCreatedAt_of_ne_nil hq
  refine ⟨nextTrack, hnext, minByCreatedAt_mem hnext,
    minByCreatedAt_le hnext, ?_⟩
  cases hc : s.currentTrack with
  | none =>
    simp [advanceToNextTrack, hnext, archiveCurrentTrack, hc]
  | some c =>
    simp [advanceToNextTrack, hnext, archiveCurrentTrack, hc]

/-- Witness for C2 at a concrete state with one queued track and a
playing current track. -/
theorem advance_nonempty_queue_spec_witness :
    ∃ nextTrack,
      minByCreatedAt queuedWithCurrentState.queue = some nextTrack ∧
      nextTrack ∈ queuedWithCurrentState.queue ∧
      (∀ q ∈ queuedWithCurrentState.queue,
        nextTrack.createdAt ≤ q.createdAt) ∧
      (advanceToNextTrack 200000 3 queuedWithCurrentState).1 =
        some (archiveCurrentTrack queuedWithCurrentState).nextId ∧
      (advanceToNextTrack 200000 3 queuedWithCurrentState).2.currentTrack =
        some (currentTrackOfQueueEntry
          (archiveCurrentTrack queuedWithCurrentState).nextId 200000
          nextTrack) ∧
      (advanceToNextTrack 200000 3 queuedWithCurrentState).2.queue =
        queuedWithCurrentState.queue.eraseP
          (fun q => q.id == nextTrack.id) ∧
      (∀ c, queuedWithCurrentState.currentTrack = some c →
        (advanceToNextTrack 200000 3 queuedWithCurrentState).2.history =
          historyEntryOfCurrent queuedWithCurrentState.nextId c ::
            queuedWithCurrentState.history) ∧
      (queuedWithCurrentState.currentTrack = none →
        (advanceToNextTrack 200000 3 queuedWithCurrentState).2.history =
          queuedWithCurrentState.history) :=
  advance_nonempty_queue_spec 200000 3 queuedWithCurrentState (by decide)

/-- C3 — Dedup correctness of enqueue: `addToQueue` inserts a new queue
entry if and only if the candidate's discogs id is neither on a queued
entry nor among the 100 most recent history entries; when either
condition holds, the state is left entirely unchanged. -/
theorem addToQueue_dedup_spec (now : Nat) (a : AddToQueueArgs)
    (s : RadioState) :
    ((addToQueue now a s).2.queue =
        s.queue ++ [queueEntryOfArgs s.nextId now a] ↔
      (∀ q ∈ s.queue, q.discogsId ≠ a.discogsId) ∧
        isTrackInRecentHistory a.discogsId 100 s.history = false)
    ∧ ((∃ q ∈ s.queue, q.discogsId = a.discogsId) ∨
        isTrackInRecentHistory a.discogsId 100 s.history = true →
      (addToQueue now a s).2 = s) := by
  have hlen : s.queue ≠ s.queue ++ [queueEntryOfArgs s.nextId now a] := by
    intro h
    have := congrArg List.length h
    simp at this
  cases hfind : s.queue.find? (fun q => q.discogsId == a.discogsId) with
  | some q =>
    have hq : q ∈ s.queue := List.mem_of_find?_eq_some hfind
    have hqd : q.discogsId = a.discogsId := by
      have := List.find?_some hfind
      simpa using this
    constructor
    · simp only [addToQueue, hfind]
      constructor
      · intro h
        exact absurd h hlen
      · rintro ⟨hall, -⟩
        exact absurd hqd (hall q hq)
    · intro _
      simp [addToQueue, hfind]
  | none =>
    have hall : ∀ q ∈ s.queue, q.discogsId ≠ a.discogsId := by
      intro q hq
      have := List.find?_eq_none.mp hfind q hq
      simpa using this
    cases hrec : isTrackInRecentHistory a.discogsId 100 s.history with
    | true =>
      constructor
      · simp only [addToQueue, hfind, hrec, if_true]
        constructor
        · intro h
          exact absurd h hlen
        · rintro ⟨-, h⟩
          cases h
      · intro _
        simp [addToQueue, hfind, hrec]
    | false =>
      constructor
      · simp only [addToQueue, hfind, hrec, if_false]
        exact ⟨fun _ => ⟨hall, by trivial⟩, fun _ => rfl⟩
      · rintro (⟨q, hq, hqd⟩ | h)
        · exact absurd hqd (hall q hq)
        · exact Bool.noConfusion h

/-- Witness for C3 at the empty state: a fresh candidate is inserted. -/
theorem addToQueue_dedup_spec_witness :
    (addToQueue 5 argsY initialRadioState).2.queue =
      initialRadioState.queue ++
        [queueEntryOfArgs initialRadioState.nextId 5 argsY] :=
  (addToQueue_dedup_spec 5 argsY initialRadioState).1.mpr
    ⟨by decide, by decide⟩

/-- C10 — Rejected enqueues return normally and change nothing: a
candidate already queued makes `addToQueue` return the existing queue
document's id with the state unchanged; a candidate in the last 100
history plays makes it return `null` with the state unchanged. -/
theorem addToQueue_rejection_spec (now : Nat) (a : AddToQueueArgs)
    (s : RadioState) :
    (∀ q, s.queue.find? (fun q' => q'.discogsId == a.discogsId) = some q →
      addToQueue now a s = (some q.id, s))
    ∧ (s.queue.find? (fun q' => q'.discogsId == a.discogsId) = none →
        isTrackInRecentHistory a.discogsId 100 s.history = true →
        addToQueue now a s = (none, s)) := by
  constructor
  · intro q hfind
    simp [addToQueue, hfind]
  · intro hfind hrec
    simp [addToQueue, hfind, hrec]

/-- Witness for C10: re-enqueueing the already queued track of
`repeatTraceState` returns the existing document's id unchanged. -/
theorem addToQueue_rejection_spec_witness :
    addToQueue 7 argsX repeatTraceState =
      (some 5, repeatTraceState) := by
  have h := (addToQueue_rejection_spec 7 argsX repeatTraceState).1
  exact h (queueEntryOfArgs 5 5 argsX) (by decide)

end Radio

namespace Radio

/-- Helper: a track returned by the history fallback selector is a
history document. -/
theorem getRandomHistoryTrack_mem {now rand hoursBack excludeRecent : Nat}
    {hist : List HistoryEntry} {h : HistoryEntry}
    (hh : getRandomHistoryTrack now rand hoursBack excludeRecent hist =
      some h) : h ∈ hist := by
  simp only [getRandomHistoryTrack] at hh
  split at hh
  · split at hh
    · cases hh
    · exact List.mem_of_mem_take (List.mem_of_mem_drop (List.get?_mem hh))
  · exact List.mem_of_mem_filter (List.get?_mem hh)

/-- Helper: the history fallback selector comes back empty exactly when no
history entry is older than the cutoff and the 200 most recent entries do
not extend past the `excludeRecent` most recent ones. -/
theorem getRandomHistoryTrack_eq_none_iff
    (now rand hoursBack excludeRecent : Nat) (hist : List HistoryEntry) :
    getRandomHistoryTrack now rand hoursBack excludeRecent hist = none ↔
      ((∀ h ∈ hist, ¬ h.playedAt < now - hoursBack * 60 * 60 * 1000) ∧
        (hist.take 200).drop excludeRecent = []) := by
  simp only [getRandomHistoryTrack]
  split
  · next he =>
    rw [List.isEmpty_iff, List.filter_eq_nil_iff] at he
    split
    · next hf =>
      rw [List.isEmpty_iff] at hf
      exact iff_of_true rfl ⟨by simpa using he, hf⟩
    · next hf =>
      rw [List.isEmpty_iff] at hf
      have hlen : 0 < ((hist.take 200).drop excludeRecent).length :=
        List.length_pos.mpr hf
      constructor
      · intro hnone
        have := List.get?_eq_none.mp hnone
        exact absurd this (by
          push_neg
          exact Nat.mod_lt _ hlen)
      · rintro ⟨-, hdrop⟩
        exact absurd hdrop hf
  · next he =>
    rw [List.isEmpty_iff] at he
    have hlen : 0 <
        (hist.filter
          (fun t => t.playedAt < now - hoursBack * 60 * 60 * 1000)).length :=
      List.length_pos.mpr he
    constructor
    · intro hnone
      have := List.get?_eq_none.mp hnone
      exact absurd this (by
        push_neg
        exact Nat.mod_lt _ hlen)
    · rintro ⟨hall, -⟩
      exact absurd (List.filter_eq_nil_iff.mpr (by simpa using hall)) he

/-- C1 counterexample — Fallback monotonicity fails: with an empty queue
and a single history entry played within the last 24 hours,
`advanceToNextTrack` returns `null` (the not-available result) even
though the history is non-empty. -/
theorem fallback_monotonicity_cex :
    oneRecentHistoryState.queue = [] ∧
    oneRecentHistoryState.history.length = 1 ∧
    advanceToNextTrack 1000000000000 0 oneRecentHistoryState =
      (none, oneRecentHistoryState) :=
  ⟨rfl, rfl, rfl⟩

/-- C1 amended — Fallback success characterisation: with an empty queue,
`advanceToNextTrack` succeeds (returns a track id) exactly when some
history entry is older than 24 hours, or the history holds more than 50
entries; with at most 50 entries all played within 24 hours — and in
particular whenever history is empty — it returns the not-available
result. -/
theorem advance_fallback_success_iff (now rand : Nat) (s : RadioState)
    (hq : s.queue = []) :
    (advanceToNextTrack now rand s).1 ≠ none ↔
      ((∃ h ∈ s.history, h.playedAt < now - 24 * 60 * 60 * 1000) ∨
        50 < s.history.length) := by
  have hmin : minByCreatedAt s.queue = none := by rw [hq]; rfl
  have hdrop : ((s.history.take 200).drop 50 = []) ↔
      s.history.length ≤ 50 := by
    rw [List.drop_eq_nil_iff, List.length_take]
    omega
  cases hg : getRandomHistoryTrack now rand 24 50 s.history with
  | none =>
    obtain ⟨hall, hd⟩ :=
      (getRandomHistoryTrack_eq_none_iff now rand 24 50 s.history).mp hg
    simp only [advanceToNextTrack, hmin, hg]
    constructor
    · intro habs
      exact absurd rfl habs
    · rintro (⟨h, hm, hp⟩ | hlt)
      · exact absurd hp (hall h hm)
      · exact absurd hlt (not_lt.mpr (hdrop.mp hd))
  | some h =>
    constructor
    · intro _
      by_cases hex : ∃ h ∈ s.history, h.playedAt < now - 24 * 60 * 60 * 1000
      · exact Or.inl hex
      · push_neg at hex
        refine Or.inr ?_
        by_contra hle
        push_neg at hle
        have : getRandomHistoryTrack now rand 24 50 s.history = none :=
          (getRandomHistoryTrack_eq_none_iff now rand 24 50 s.history).mpr
            ⟨fun h hm => not_lt.mpr (hex h hm), hdrop.mpr hle⟩
        rw [hg] at this
        cases this
    · intro _
      simp only [advanceToNextTrack, hmin, hg]
      exact Option.some_ne_none _

/-- Witness for the amended C1 at the concrete counterexample state: with
one recent history entry, neither success condition holds and advancement
indeed fails. -/
theorem advance_fallback_success_iff_witness :
    ((advanceToNextTrack 1000000000000 0 oneRecentHistoryState).1 ≠ none ↔
      ((∃ h ∈ oneRecentHistoryState.history,
          h.playedAt < 1000000000000 - 24 * 60 * 60 * 1000) ∨
        50 < oneRecentHistoryState.history.length)) :=
  advance_fallback_success_iff 1000000000000 0 oneRecentHistoryState rfl

end Radio

namespace Radio

/-- C4 counterexample — No-immediate-repeat fails on a reachable
sequence: running `repeatTrace` from the empty state leaves X current, Y
in the history (so other content exists), and X queued again — the dedup
checks of `addToQueue` never consult the current track — whereupon the
next advancement succeeds and installs a new current track with the same
catalog id X as the one it replaces. -/
theorem no_immediate_repeat_cex :
    repeatTraceState.currentTrack.map (fun c => c.discogsId) = some "X" ∧
    repeatTraceState.history.map (fun h => h.discogsId) = ["Y"] ∧
    (advanceToNextTrack 6 0 repeatTraceState).1.isSome = true ∧
    (advanceToNextTrack 6 0 repeatTraceState).2.currentTrack.map
      (fun c => c.discogsId) = some "X" :=
  ⟨rfl, rfl, rfl, rfl⟩

/-- C4 amended — No-immediate-repeat holds only under a freshness
hypothesis: when the replaced current track's catalog id appears on no
queue document and no history document at advancement time, a successful
`advanceToNextTrack` installs a track with a different catalog id.  (The
unconditional claim is false: the enqueue dedup never compares against
the current track, so its id can re-enter the queue — or be selected from
history fallback — and be replayed immediately.) -/
theorem advance_no_repeat_of_fresh (now rand : Nat) (s : RadioState)
    (c : CurrentTrack) (_hc : s.currentTrack = some c)
    (hq : ∀ q ∈ s.queue, q.discogsId ≠ c.discogsId)
    (hh : ∀ h ∈ s.history, h.discogsId ≠ c.discogsId)
    (hs : (advanceToNextTrack now rand s).1.isSome = true)
    (t : CurrentTrack)
    (ht : (advanceToNextTrack now rand s).2.currentTrack = some t) :
    t.discogsId ≠ c.discogsId := by
  cases hmin : minByCreatedAt s.queue with
  | some nextTrack =>
    have hmem := minByCreatedAt_mem hmin
    have hcur : (advanceToNextTrack now rand s).2.currentTrack =
        some (currentTrackOfQueueEntry (archiveCurrentTrack s).nextId now
          nextTrack) := by
      simp [advanceToNextTrack, hmin]
    rw [hcur, Option.some.injEq] at ht
    rw [← ht]
    exact hq nextTrack hmem
  | none =>
    cases hg : getRandomHistoryTrack now rand 24 50 s.history with
    | none =>
      rw [show advanceToNextTrack now rand s = (none, s) by
        simp [advanceToNextTrack, hmin, hg]] at hs
      cases hs
    | some htrk =>
      have hmem := getRandomHistoryTrack_mem hg
      have hcur : (advanceToNextTrack now rand s).2.currentTrack =
          some (currentTrackOfHistoryEntry (archiveCurrentTrack s).nextId
            now htrk) := by
        simp [advanceToNextTrack, hmin, hg]
      rw [hcur, Option.some.injEq] at ht
      rw [← ht]
      exact hh htrk hmem

/-- Witness for the amended C4: advancing from a state whose queued track
Q differs from the current track C yields a current track with id Q ≠ C. -/
theorem advance_no_repeat_of_fresh_witness :
    (currentTrackOfQueueEntry 9 200000 sampleQueueEntry).discogsId ≠
      sampleCurrent.discogsId :=
  advance_no_repeat_of_fresh 200000 0 queuedWithCurrentState sampleCurrent
    rfl (by decide) (by decide) (by decide)
    (currentTrackOfQueueEntry 9 200000 sampleQueueEntry) (by decide)

/-- C9 — Expiration-driven advancement: with a current track,
`checkAndAdvanceTrack` invokes track advancement exactly when
`now - startedAt` has reached the track's duration in milliseconds —
`effectiveDurationSeconds` being the stored duration with a default of
180 seconds when it is unknown — in which case the resulting state is the
advancement's; when the track has not yet expired, it leaves the whole
state (current track, queue and history) unchanged. -/
theorem checkAndAdvanceTrack_expiration_spec (now rand : Nat)
    (s : RadioState) (c : CurrentTrack) (hc : s.currentTrack = some c) :
    ((checkAndAdvanceTrack now rand s).1 = true ↔
      effectiveDurationSeconds c.durationSeconds * 1000 ≤
        now - c.startedAt)
    ∧ ((checkAndAdvanceTrack now rand s).1 = true →
        (checkAndAdvanceTrack now rand s).2 =
          (advanceToNextTrackWithContext now rand s).2)
    ∧ ((checkAndAdvanceTrack now rand s).1 = false →
        checkAndAdvanceTrack now rand s = (false, s)) := by
  have hdur : 1 ≤ effectiveDurationSeconds c.durationSeconds := by
    cases hd : c.durationSeconds with
    | none => simp [effectiveDurationSeconds]
    | some n => cases n <;> simp [effectiveDurationSeconds]
  simp only [checkAndAdvanceTrack, hc]
  by_cases hexp :
      c.startedAt + effectiveDurationSeconds c.durationSeconds * 1000 ≤ now
  · rw [if_pos hexp]
    exact ⟨⟨fun _ => by omega, fun _ => rfl⟩, fun _ => rfl,
      fun h => Bool.noConfusion h⟩
  · rw [if_neg hexp]
    refine ⟨⟨fun h => Bool.noConfusion h, fun hle => ?_⟩,
      fun h => Bool.noConfusion h, fun _ => rfl⟩
    exact (hexp (by omega)).elim

/-- Witness for C9 at a concrete expired state: the current track started
at 1000 with unknown duration (so 180 s effective), and at `now = 200000`
the checker advances. -/
theorem checkAndAdvanceTrack_expiration_spec_witness :
    (((checkAndAdvanceTrack 200000 0 queuedWithCurrentState).1 = true ↔
      effectiveDurationSeconds sampleCurrent.durationSeconds * 1000 ≤
        200000 - sampleCurrent.startedAt)
    ∧ ((checkAndAdvanceTrack 200000 0 queuedWithCurrentState).1 = true →
        (checkAndAdvanceTrack 200000 0 queuedWithCurrentState).2 =
          (advanceToNextTrackWithContext 200000 0
            queuedWithCurrentState).2)
    ∧ ((checkAndAdvanceTrack 200000 0 queuedWithCurrentState).1 = false →
        checkAndAdvanceTrack 200000 0 queuedWithCurrentState =
          (false, queuedWithCurrentState))) :=
  checkAndAdvanceTrack_expiration_spec 200000 0 queuedWithCurrentState
    sampleCurrent rfl

end Radio

namespace KeyPool

/-- Helper: every element of the `availableKeys` list is a qualifying
credential carrying its usage record of today. -/
theorem mem_availableKeys {cost : Nat} {cfg : String → Bool} {s : UsageMap}
    {cand : KeyCandidate}
    (h : cand ∈ (keyUsagesFor cost cfg s).filter (fun c => c.canUse)) :
    Qualifies cost cfg s cand.id ∧
    cand.usage = getKeyUsageToday cand.id s := by
  obtain ⟨hmem, hcan⟩ := List.mem_filter.mp h
  simp only [keyUsagesFor, List.mem_filterMap] at hmem
  obtain ⟨kid, hk, heq⟩ := hmem
  by_cases hcfg : cfg kid = true
  · rw [if_pos hcfg] at heq
    injection heq with heq
    subst heq
    simp only [Bool.and_eq_true, Bool.not_eq_true', decide_eq_true_eq]
      at hcan
    exact ⟨⟨hk, hcfg, hcan.1, hcan.2⟩, rfl⟩
  · rw [if_neg hcfg] at heq
    cases heq

/-- Helper: every qualifying credential contributes its candidate to the
`availableKeys` list. -/
theorem qualifies_mem_availableKeys {cost : Nat} {cfg : String → Bool}
    {s : UsageMap} {k : String} (h : Qualifies cost cfg s k) :
    ({ id := k, usage := getKeyUsageToday k s,
       canUse := !(getKeyUsageToday k s).quotaExhausted &&
         decide ((getKeyUsageToday k s).quotaUsed + cost ≤
           DAILY_QUOTA_LIMIT) } : KeyCandidate) ∈
      (keyUsagesFor cost cfg s).filter (fun c => c.canUse) := by
  obtain ⟨hmem, hcfg, hflag, hle⟩ := h
  refine List.mem_filter.mpr ⟨?_, ?_⟩
  · simp only [keyUsagesFor, List.mem_filterMap]
    exact ⟨k, hmem, by rw [if_pos hcfg]⟩
  · simp [hflag, hle]

/-- Helper: selection fails exactly when no credential qualifies. -/
theorem getBestAvailableKey_none_iff (op : YouTubeOperation)
    (cfg : String → Bool) (s : UsageMap) :
    getBestAvailableKey op cfg s = none ↔
      ∀ k, ¬ Qualifies (quotaCostOf op) cfg s k := by
  simp only [getBestAvailableKey]
  cases hav : (keyUsagesFor (quotaCostOf op) cfg s).filter
      (fun k => k.canUse) with
  | nil =>
    constructor
    · intro _ k hq
      have hin := qualifies_mem_availableKeys hq
      rw [hav] at hin
      cases hin
    · intro _
      rfl
  | cons b rest =>
    constructor
    · intro h
      cases h
    · intro hall
      have hb : b ∈ (keyUsagesFor (quotaCostOf op) cfg s).filter
          (fun k => k.canUse) := by
        rw [hav]
        exact List.mem_cons_self b rest
      exact ((hall b.id) (mem_availableKeys hb).1).elim

/-- Helper: a selected credential qualifies, is reported with its current
usage, and that usage is minimal among all qualifying credentials. -/
theorem getBestAvailableKey_sound (op : YouTubeOperation)
    (cfg : String → Bool) (s : UsageMap) (k : String) (u : Nat)
    (h : getBestAvailableKey op cfg s = some (k, u)) :
    Qualifies (quotaCostOf op) cfg s k ∧
    u = (getKeyUsageToday k s).quotaUsed ∧
    ∀ k', Qualifies (quotaCostOf op) cfg s k' →
      u ≤ (getKeyUsageToday k' s).quotaUsed := by
  simp only [getBestAvailableKey] at h
  cases hav : (keyUsagesFor (quotaCostOf op) cfg s).filter
      (fun k => k.canUse) with
  | nil =>
    rw [hav] at h
    cases h
  | cons b rest =>
    rw [hav] at h
    injection h with h
    obtain ⟨hk, hu⟩ := Prod.mk.injEq .. |>.mp h
    have hbmem : (rest.foldl (fun best cur =>
        if cur.usage.quotaUsed < best.usage.quotaUsed then cur else best)
        b) ∈ b :: rest := by
      rcases foldl_minBy_mem (fun c => c.usage.quotaUsed) b rest with h' | h'
      · rw [h']
        exact List.mem_cons_self b rest
      · exact List.mem_cons_of_mem b h'
    obtain ⟨hle_b, hle_rest⟩ :=
      foldl_minBy_le (fun c => c.usage.quotaUsed) b rest
    have hmem_f : (rest.foldl (fun best cur =>
        if cur.usage.quotaUsed < best.usage.quotaUsed then cur else best)
        b) ∈ (keyUsagesFor (quotaCostOf op) cfg s).filter
          (fun k => k.canUse) := by
      rw [hav]
      exact hbmem
    obtain ⟨hqual, husage⟩ := mem_availableKeys hmem_f
    subst hk
    subst hu
    refine ⟨hqual, by rw [← husage], ?_⟩
    intro k' hk'
    have hc' := qualifies_mem_availableKeys hk'
    rw [hav] at hc'
    rcases List.mem_cons.mp hc' with hceq | hcm
    · refine le_trans hle_b ?_
      rw [← hceq]
    · exact hle_rest _ hcm

/-- C5 — Key selection: `getBestAvailableKey` considers exactly the
configured credentials that are not flagged exhausted and whose usage
plus the operation's quota cost fits the 10000 daily budget
(`Qualifies`); when some credential qualifies it returns one of them,
reporting its current usage, and that usage is the lowest among all
qualifying credentials; when none qualifies it fails with the
all-keys-exhausted error (`none`). -/
theorem getBestAvailableKey_spec (op : YouTubeOperation)
    (configured : String → Bool) (s : UsageMap) :
    (getBestAvailableKey op configured s = none ↔
      ∀ k, ¬ Qualifies (quotaCostOf op) configured s k)
    ∧ (∀ k u, getBestAvailableKey op configured s = some (k, u) →
        Qualifies (quotaCostOf op) configured s k ∧
        u = (getKeyUsageToday k s).quotaUsed ∧
        ∀ k', Qualifies (quotaCostOf op) configured s k' →
          u ≤ (getKeyUsageToday k' s).quotaUsed) :=
  ⟨getBestAvailableKey_none_iff op configured s,
   fun k u h => getBestAvailableKey_sound op configured s k u h⟩

/-- Witness for C5 at the spec's scenario (key1 at 9950/10000, search
costing 100, key2 at 0/10000): selection returns key2, which qualifies
and has minimal usage. -/
theorem getBestAvailableKey_spec_witness :
    Qualifies (quotaCostOf .search) (fun _ => true) scenarioUsage "key2" ∧
    (0 : Nat) = (getKeyUsageToday "key2" scenarioUsage).quotaUsed ∧
    ∀ k', Qualifies (quotaCostOf .search) (fun _ => true) scenarioUsage k' →
      0 ≤ (getKeyUsageToday k' scenarioUsage).quotaUsed :=
  (getBestAvailableKey_spec .search (fun _ => true) scenarioUsage).2
    "key2" 0 (by rfl)

end KeyPool

namespace KeyPool

/-- Helper: along select-then-record sequences the recorded usage never
exceeds the daily limit at all — selection admits a key only when its
usage plus the cost still fits, and recording adds exactly that cost. -/
theorem pool_used_le_limit {s : UsageMap} (hs : PoolReachable s) :
    ∀ k u, s k = some u → u.quotaUsed ≤ DAILY_QUOTA_LIMIT := by
  induction hs with
  | init =>
    intro k u h
    cases h
  | step s op cfg succ ec k0 u0 hre hsel ih =>
    intro k u hu
    have hq : (getKeyUsageToday k0 s).quotaUsed + quotaCostOf op ≤
        DAILY_QUOTA_LIMIT :=
      (getBestAvailableKey_sound op cfg s k0 u0 hsel).1.2.2.2
    cases hsk : s k0 with
    | none =>
      simp only [updateKeyUsage, hsk] at hu
      by_cases hk : k = k0
      · rw [if_pos hk] at hu
        injection hu with hu
        rw [getKeyUsageToday, hsk] at hq
        rw [← hu]
        simpa [freshUsage] using hq
      · rw [if_neg hk] at hu
        exact ih k u hu
    | some e =>
      simp only [updateKeyUsage, hsk] at hu
      by_cases hk : k = k0
      · rw [if_pos hk] at hu
        injection hu with hu
        rw [getKeyUsageToday, hsk] at hq
        rw [← hu]
        simpa using hq
      · rw [if_neg hk] at hu
        exact ih k u hu

/-- C6 — Key pool budget invariant: along every select-then-record call
sequence (`PoolReachable`), no credential's recorded `quotaUsed` for the
day ever exceeds the 10000 daily budget plus one in-flight operation's
quota cost. -/
theorem pool_budget_spec {s : UsageMap} (hs : PoolReachable s)
    (k : String) (u : KeyUsage) (hu : s k = some u)
    (op : YouTubeOperation) :
    u.quotaUsed ≤ DAILY_QUOTA_LIMIT + quotaCostOf op :=
  le_trans (pool_used_le_limit hs k u hu) (Nat.le_add_right _ _)

/-- Witness for C6 after one concrete select-then-record step from the
empty table: key1 is selected for a search, records 100 units, and stays
within budget plus one search cost. -/
theorem pool_budget_spec_witness :
    ({ quotaUsed := 100, callsSuccessful := 1, callsFailed := 0,
       quotaExhausted := false } : KeyUsage).quotaUsed ≤
      DAILY_QUOTA_LIMIT + quotaCostOf .search :=
  pool_budget_spec
    (PoolReachable.step (fun _ => none) .search (fun _ => true) true none
      "key1" 0 PoolReachable.init (by rfl))
    "key1"
    { quotaUsed := 100, callsSuccessful := 1, callsFailed := 0,
      quotaExhausted := false }
    (by rfl) .search

/-- C7 — Permanent same-day exhaustion flag: a 403 error code flags the
updated credential exhausted; once a credential's flag is set for the day
it survives every later `updateKeyUsage` call (same key or not, success
or not); and `getBestAvailableKey` never returns a flagged credential. -/
theorem exhaustion_flag_spec :
    (∀ (k : String) (cost : Nat) (succ : Bool) (s : UsageMap),
      (getKeyUsageToday k
        (updateKeyUsage k cost succ (some 403) s)).quotaExhausted = true)
    ∧ (∀ (k k' : String) (cost : Nat) (succ : Bool) (ec : Option Nat)
        (s : UsageMap),
        (getKeyUsageToday k s).quotaExhausted = true →
        (getKeyUsageToday k
          (updateKeyUsage k' cost succ ec s)).quotaExhausted = true)
    ∧ (∀ (op : YouTubeOperation) (cfg : String → Bool) (s : UsageMap)
        (k : String) (u : Nat),
        getBestAvailableKey op cfg s = some (k, u) →
        (getKeyUsageToday k s).quotaExhausted = false) := by
  refine ⟨?_, ?_, ?_⟩
  · intro k cost succ s
    cases hsk : s k with
    | none => simp [updateKeyUsage, getKeyUsageToday, hsk]
    | some e => simp [updateKeyUsage, getKeyUsageToday, hsk]
  · intro k k' cost succ ec s hex
    by_cases hk : k = k'
    · subst hk
      cases hsk : s k with
      | none =>
        rw [getKeyUsageToday, hsk] at hex
        cases hex
      | some e =>
        rw [getKeyUsageToday, hsk] at hex
        simp only [Option.getD_some] at hex
        cases hsk' : s k
        · rw [hsk] at hsk'
          cases hsk'
        · rw [hsk] at hsk'
          injection hsk' with hsk'
          simp [updateKeyUsage, hsk, getKeyUsageToday, hex]
    · rw [getKeyUsageToday] at hex
      cases hsk' : s k' <;>
        simp [updateKeyUsage, hsk', getKeyUsageToday, hk, hex]
  · intro op cfg s k u hsel
    exact (getBestAvailableKey_sound op cfg s k u hsel).1.2.2.1

/-- Witness for C7: a 403 on a fresh key sets the flag; a later
successful call on an already flagged key keeps it; selection over the
scenario table returns the unflagged key2. -/
theorem exhaustion_flag_spec_witness :
    (getKeyUsageToday "key1"
      (updateKeyUsage "key1" 100 false (some 403)
        (fun _ => none))).quotaExhausted = true ∧
    (getKeyUsageToday "key1"
      (updateKeyUsage "key1" 1 true none
        exhaustedUsage)).quotaExhausted = true ∧
    (getKeyUsageToday "key2" scenarioUsage).quotaExhausted = false :=
  ⟨exhaustion_flag_spec.1 "key1" 100 false (fun _ => none),
   exhaustion_flag_spec.2.1 "key1" "key1" 1 true none exhaustedUsage
     (by rfl),
   exhaustion_flag_spec.2.2 .search (fun _ => true) scenarioUsage
     "key2" 0 (by rfl)⟩

end KeyPool

namespace Cache

/-- Helper: after a save, the first document under the saved key exists
and carries exactly the saved payload (patched in place on a hit,
inserted on a miss). -/
theorem saveToCache_lookup (now : Nat) (a : SaveToCacheArgs)
    (c : CacheState) :
    ((saveToCache now a c).entries.find?
        (fun x => x.artist == normalizeKey a.artist &&
          x.title == normalizeKey a.title)).map CacheEntry.storedMatch =
      some a.payload := by
  cases hf : findByKey (normalizeKey a.artist) (normalizeKey a.title)
      c.entries with
  | none =>
    simp only [saveToCache, hf]
    rw [findByKey] at hf
    rw [find?_append_eq_right _ _ _ hf]
    simp [List.find?_cons, CacheEntry.storedMatch, SaveToCacheArgs.payload]
  | some e0 =>
    have hstep := find?_patchFirst
      (fun x : CacheEntry => x.artist == normalizeKey a.artist &&
        x.title == normalizeKey a.title)
      (fun e =>
        { e with youtubeId := a.youtubeId, videoTitle := a.videoTitle,
                 channelTitle := a.channelTitle,
                 thumbnailUrl := a.thumbnailUrl,
                 durationSeconds := a.durationSeconds,
                 viewCount := a.viewCount, publishedAt := a.publishedAt,
                 cachedAt := now, lastUsedAt := now,
                 useCount := e0.useCount + 1 })
      c.entries (fun x h => h)
    simp only [saveToCache, hf]
    rw [hstep]
    rw [findByKey] at hf
    rw [hf]
    rfl

/-- Helper: a save never creates a second document under its key — the
count under the key becomes one on a miss and is unchanged on a hit. -/
theorem saveToCache_countKey (now : Nat) (a : SaveToCacheArgs)
    (c : CacheState) :
    countKey (normalizeKey a.artist) (normalizeKey a.title)
      (saveToCache now a c).entries =
    max 1 (countKey (normalizeKey a.artist) (normalizeKey a.title)
      c.entries) := by
  cases hf : findByKey (normalizeKey a.artist) (normalizeKey a.title)
      c.entries with
  | none =>
    rw [findByKey] at hf
    simp only [saveToCache, findByKey, hf, countKey]
    rw [List.countP_append]
    have h0 : c.entries.countP
        (fun e => e.artist == normalizeKey a.artist &&
          e.title == normalizeKey a.title) = 0 :=
      List.countP_eq_zero.mpr (List.find?_eq_none.mp hf)
    rw [h0]
    simp
  | some e0 =>
    have hstep := countP_patchFirst
      (fun x : CacheEntry => x.artist == normalizeKey a.artist &&
        x.title == normalizeKey a.title)
      (fun e =>
        { e with youtubeId := a.youtubeId, videoTitle := a.videoTitle,
                 channelTitle := a.channelTitle,
                 thumbnailUrl := a.thumbnailUrl,
                 durationSeconds := a.durationSeconds,
                 viewCount := a.viewCount, publishedAt := a.publishedAt,
                 cachedAt := now, lastUsedAt := now,
                 useCount := e0.useCount + 1 })
      c.entries (fun x => rfl)
    simp only [saveToCache, hf, countKey]
    rw [hstep]
    rw [findByKey] at hf
    have hmem := List.mem_of_find?_eq_some hf
    have hpe := List.find?_some hf
    have hpos : 0 < c.entries.countP
        (fun e => e.artist == normalizeKey a.artist &&
          e.title == normalizeKey a.title) :=
      List.countP_pos_iff.mpr ⟨e0, hmem, hpe⟩
    rw [Nat.max_eq_right hpos]

/-- C8 — Cache upsert idempotence with last-write-wins: keys are
normalized by lower-casing and trimming (`normalizeKey`); saving a match
and then saving a new match under the same key leaves exactly
`max 1 (previous count)` documents under the normalized key (no second
entry is ever created), and a subsequent `getCachedMatch` under any
spelling with the same normalization returns exactly the second payload. -/
theorem cache_upsert_last_write_wins (now now' : Nat)
    (a a' : SaveToCacheArgs) (c : CacheState) (artist title : String)
    (hka : a'.artist = a.artist) (hkt : a'.title = a.title)
    (hla : normalizeKey artist = normalizeKey a.artist)
    (hlt : normalizeKey title = normalizeKey a.title) :
    (∃ e, getCachedMatch artist title
        (saveToCache now' a' (saveToCache now a c)) = some e ∧
      e.storedMatch = a'.payload)
    ∧ countKey (normalizeKey a.artist) (normalizeKey a.title)
        (saveToCache now' a' (saveToCache now a c)).entries =
      max 1 (countKey (normalizeKey a.artist) (normalizeKey a.title)
        c.entries) := by
  have hna : normalizeKey a'.artist = normalizeKey a.artist := by rw [hka]
  have hnt : normalizeKey a'.title = normalizeKey a.title := by rw [hkt]
  constructor
  · have hmap := saveToCache_lookup now' a' (saveToCache now a c)
    rw [hna, hnt] at hmap
    obtain ⟨e, hfind, hpay⟩ := Option.map_eq_some'.mp hmap
    refine ⟨e, ?_, hpay⟩
    rw [getCachedMatch, findByKey, hla, hlt]
    exact hfind
  · have h2 := saveToCache_countKey now' a' (saveToCache now a c)
    rw [hna, hnt] at h2
    rw [h2, saveToCache_countKey now a c]
    omega

/-- Witness for C8: two saves for the key ("  The Artist ", "Song") into
the empty cache return the second payload on lookup and leave exactly one
document under the key. -/
theorem cache_upsert_last_write_wins_witness :
    ((∃ e, getCachedMatch cacheArgsV1.artist cacheArgsV1.title
        (saveToCache 20 cacheArgsV2 (saveToCache 10 cacheArgsV1
          emptyCache)) = some e ∧
      e.storedMatch = cacheArgsV2.payload)
    ∧ countKey (normalizeKey cacheArgsV1.artist)
        (normalizeKey cacheArgsV1.title)
        (saveToCache 20 cacheArgsV2 (saveToCache 10 cacheArgsV1
          emptyCache)).entries =
      max 1 (countKey (normalizeKey cacheArgsV1.artist)
        (normalizeKey cacheArgsV1.title) emptyCache.entries)) :=
  cache_upsert_last_write_wins 10 20 cacheArgsV1 cacheArgsV2 emptyCache
    cacheArgsV1.artist cacheArgsV1.title rfl rfl rfl rfl

end Cache
